import Mathlib

/-!
# Gophette: Hero animation, input translation and the host loop

A shallow embedding of `hero.go` and of the event pump, the update/render step and
`textureImage.DrawAt` of `main.go`, followed by the properties of the specification
that were checked against it.

Conventions of the embedding

* A Go `int` is a mathematical integer kept in the signed 64-bit range; every Go
  arithmetic operation is followed by `wrapInt`.  The conversion `int32(e)` is `toInt32`.
* A Go fixed-size array is a list; indexing outside the list panics (`none`).
* Calls into collaborators that are outside the two source files (the game controller,
  the camera, the SDL renderer) are recorded as a trace of calls.
-/

namespace Gophette

/-! ## Machine integers -/

/-- Two's-complement wrap of an integer into the signed range of `bits` bits. -/
def wrapBits (bits : Nat) (z : Int) : Int :=
  (z + 2 ^ (bits - 1)) % 2 ^ bits - 2 ^ (bits - 1)

/-- Result of a Go `int` operation whose exact value is `z` (64-bit target). -/
def wrapInt (z : Int) : Int := wrapBits 64 z

/-- Go conversion `int32(z)` of an `int` value. -/
def toInt32 (z : Int) : Int := wrapBits 32 z

/-- The values a Go `int` can hold. -/
def InIntRange (z : Int) : Prop := -(2 : Int) ^ 63 ≤ z ∧ z < (2 : Int) ^ 63

/-- The values a Go `int32` can hold. -/
def InInt32Range (z : Int) : Prop := -(2 : Int) ^ 31 ≤ z ∧ z < (2 : Int) ^ 31

instance (z : Int) : Decidable (InIntRange z) := by
  unfold InIntRange; exact inferInstance

instance (z : Int) : Decidable (InInt32Range z) := by
  unfold InInt32Range; exact inferInstance

/-! ## hero.go -/

def HeroAccelerationX : Int := 2

def HeroDecelerationX : Int := 1

def HeroMaxSpeedX : Int := 10

def HeroRunFrameDelay : Int := 4

/-- The direction constants `LeftDirectionIndex`, `RightDirectionIndex` and
`DirectionCount`.  `hero.go` uses them; their declaration is in another file of the
repository, so the embedding takes them as a parameter. -/
structure Directions where
  LeftDirectionIndex : Int
  RightDirectionIndex : Int
  DirectionCount : Nat
  deriving DecidableEq, Repr

/-- Requirements on the direction constants: `DirectionCount` is large enough for the
two-row composite literals of `NewHero` to compile, and both indices select one of the
two rows that those literals fill (any further row holds nil images only). -/
def Directions.Valid (c : Directions) : Prop :=
  2 ≤ c.DirectionCount ∧
  0 ≤ c.LeftDirectionIndex ∧ c.LeftDirectionIndex < 2 ∧
  0 ≤ c.RightDirectionIndex ∧ c.RightDirectionIndex < 2

instance (c : Directions) : Decidable c.Valid := by
  unfold Directions.Valid; exact inferInstance

/-- The struct `Hero`.  A value of the Go interface `Image` is `some image`, with
`image` of the type `Image` of the images proper, or the nil interface `none`. -/
structure Hero (Image : Type) where
  Direction : Int
  X : Int
  Y : Int
  SpeedX : Int
  SpeedY : Int
  runFrames : List (List (Option Image))
  jumpFrames : List (Option Image)
  runFrameIndex : Int
  nextRunFrame : Int
  deriving DecidableEq, Repr

/-- Go array literal of declared length `n` with the listed leading elements; the
remaining elements are the zero value. -/
def arrayLit {α : Type} (n : Nat) (zero : α) (xs : List α) : List α :=
  xs ++ List.replicate (n - xs.length) zero

/-- Go index expression `xs[i]` on an array; `none` is the out-of-range panic. -/
def index {α : Type} (xs : List α) (i : Int) : Option α :=
  if 0 ≤ i then xs.get? i.toNat else none

/-- `NewHero`; `LoadImage id` is the interface value that `assets.LoadImage(id)`
returns, which may be nil (a load that panics constructs no Hero).  Every field that
the literal does not mention has its zero value, and so has every array element beyond
the listed ones: the nil image. -/
def NewHero {Image : Type} (c : Directions) (LoadImage : String → Option Image) :
    Hero Image :=
  { Direction := 0
    X := 0
    Y := 0
    SpeedX := 0
    SpeedY := 0
    runFrames := arrayLit c.DirectionCount [none, none, none]
      [ [ LoadImage "gophette_left_run1",
          LoadImage "gophette_left_run2",
          LoadImage "gophette_left_run3" ],
        [ LoadImage "gophette_right_run1",
          LoadImage "gophette_right_run2",
          LoadImage "gophette_right_run3" ] ]
    jumpFrames := arrayLit c.DirectionCount none
      [ LoadImage "gophette_left_jump",
        LoadImage "gophette_right_jump" ]
    runFrameIndex := 0
    nextRunFrame := 0 }

/-- One call `image.DrawAt(x, y)` on a non-nil `Image` value. -/
structure DrawAtCall (Image : Type) where
  image : Image
  x : Int
  y : Int
  deriving DecidableEq, Repr

/-- `Hero.Render`: the list of `DrawAt` calls it issues; `none` when it panics, which
it does when an index is out of range and when the selected element is the nil
interface, through which no method can be called. -/
def Hero.Render {Image : Type} (h : Hero Image) : Option (List (DrawAtCall Image)) :=
  let frameIndex := h.runFrameIndex
  let frameIndex := if frameIndex = 2 then 0 else frameIndex
  let frameIndex := if frameIndex = 3 then 2 else frameIndex
  match index h.runFrames h.Direction with
  | none => none
  | some row =>
    match index row frameIndex with
    | none => none
    | some none => none
    | some (some image) => some [{ image := image, x := h.X, y := h.Y }]

/-- `Hero.Update`. -/
def Hero.Update {Image : Type} (c : Directions) (h : Hero Image) : Hero Image :=
  let h := if h.SpeedX < 0 then { h with Direction := c.LeftDirectionIndex } else h
  let h := if h.SpeedX > 0 then { h with Direction := c.RightDirectionIndex } else h
  let h :=
    if h.SpeedX = 0 then
      { h with runFrameIndex := 0, nextRunFrame := 0 }
    else
      let h := { h with nextRunFrame := wrapInt (h.nextRunFrame - 1) }
      if h.nextRunFrame ≤ 0 then
        { h with
          runFrameIndex := Int.tmod (wrapInt (h.runFrameIndex + 1)) 4
          nextRunFrame := HeroRunFrameDelay }
      else h
  { h with X := wrapInt (h.X + h.SpeedX) }

/-- The state in which the next `Update` finds the Hero when its caller has stored
`v` in `SpeedX` since the previous one. -/
def Hero.setSpeedX {Image : Type} (v : Int) (h : Hero Image) : Hero Image :=
  { h with SpeedX := v }

/-- A sequence of `Update` calls; before each call `SpeedX` holds the listed value. -/
def Hero.run {Image : Type} (c : Directions) : List Int → Hero Image → Hero Image
  | [], h => h
  | v :: vs, h => Hero.run c vs ((h.setSpeedX v).Update c)

/-! ### The acceleration step (outside `hero.go` and `main.go`) -/

/-- Modelled from the spec: the enum `Direction` with exactly the two values `Left`
and `Right`, as the argument of the acceleration-intent setter (renamed, `Direction`
being a field of `Hero`). -/
inductive MoveDirection where
  | Left
  | Right
  deriving DecidableEq, Repr

/-- Modelled from the spec: the acceleration-intent setter `accelerate(direction)`,
which is in neither `hero.go` nor `main.go` (`Hero.Update` never writes `SpeedX`).
It adjusts `speed.x` by `-HeroAccelerationX` (left) or `+HeroAccelerationX` (right),
clamped to `[-HeroMaxSpeedX, HeroMaxSpeedX]`. -/
def Hero.accelerate {Image : Type} (d : MoveDirection) (h : Hero Image) : Hero Image :=
  let v := match d with
    | MoveDirection.Left => h.SpeedX - HeroAccelerationX
    | MoveDirection.Right => h.SpeedX + HeroAccelerationX
  { h with SpeedX := max (-HeroMaxSpeedX) (min HeroMaxSpeedX v) }

/-- Modelled from the spec: one fixed tick of the game controller, which is in
neither `hero.go` nor `main.go`, while a `GoLeft` press is in force and no opposing
intent exists: the leftward acceleration is applied, then the source function
`Hero.Update` runs. -/
def Hero.tickLeft {Image : Type} (c : Directions) (h : Hero Image) : Hero Image :=
  (h.accelerate MoveDirection.Left).Update c

/-- The states after ticks `1, 2, ..., n` of `tickLeft`. -/
def Hero.leftTrace {Image : Type} (c : Directions) : Nat → Hero Image → List (Hero Image)
  | 0, _ => []
  | n + 1, h => h.tickLeft c :: Hero.leftTrace c n (h.tickLeft c)

/-! ### Observing the animation cursor -/

/-- The frame index that `Hero.Render` computes from `runFrameIndex` (its first
three statements). -/
def renderFrameIndex (runFrameIndex : Int) : Int :=
  let frameIndex := runFrameIndex
  let frameIndex := if frameIndex = 2 then 0 else frameIndex
  let frameIndex := if frameIndex = 3 then 2 else frameIndex
  frameIndex

/-- The mapping `0 -> 0, 1 -> 1, 2 -> 0, 3 -> 2` of the specification, written as a
table; outside `[0, 3]` the specification says nothing (`none`). -/
def visibleFrame : Int → Option Int
  | 0 => some 0
  | 1 => some 1
  | 2 => some 0
  | 3 => some 2
  | _ => none

/-- The values of `runFrameIndex` after each `Update` of a sequence of calls; before
each call `SpeedX` holds the listed value. -/
def Hero.frameTrace {Image : Type} (c : Directions) : List Int → Hero Image → List Int
  | [], _ => []
  | v :: vs, h =>
    ((h.setSpeedX v).Update c).runFrameIndex :: Hero.frameTrace c vs ((h.setSpeedX v).Update c)

/-- The animation cursor `(runFrameIndex, nextRunFrame)` of a Hero. -/
def Hero.cursor {Image : Type} (h : Hero Image) : Int × Int :=
  (h.runFrameIndex, h.nextRunFrame)

/-- The `else` branch of `Hero.Update` (lines 69 to 73) on the animation cursor. -/
def advance (p : Int × Int) : Int × Int :=
  let n := wrapInt (p.2 - 1)
  if n ≤ 0 then (Int.tmod (wrapInt (p.1 + 1)) 4, HeroRunFrameDelay) else (p.1, n)

/-- The first components of the cursor after `1, 2, ..., k` applications of `advance`. -/
def cursorTrace : Nat → Int × Int → List Int
  | 0, _ => []
  | k + 1, p => (advance p).1 :: cursorTrace k (advance p)

/-- The values at which a sequence changes, given the value `r` before it. -/
def changes : Int → List Int → List Int
  | _, [] => []
  | r, x :: xs => if x = r then changes x xs else x :: changes x xs

/-- The 32 frame indices shown after each tick of two run cycles that begin at the
start of phase 0: each of `0, 1, 0, 2, 0, 1, 0, 2` for `HeroRunFrameDelay` ticks. -/
def twoCycles : List Int :=
  [0, 1, 0, 2, 0, 1, 0, 2].flatMap fun f => List.replicate HeroRunFrameDelay.toNat f

/-! ## main.go -/

/-- Modelled from the spec: the kind of an `InputEvent`, one of the four constants
`GoLeft`, `GoRight`, `Jump`, `QuitGame` that `main.go` uses and another file declares. -/
inductive InputKind where
  | GoLeft
  | GoRight
  | Jump
  | QuitGame
  deriving DecidableEq, Repr

/-- Modelled from the spec: the struct `InputEvent{kind, pressed, actorIndex}`, built
in `main.go` by positional literals and declared in another file. -/
structure InputEvent where
  kind : InputKind
  pressed : Bool
  actorIndex : Int
  deriving DecidableEq, Repr

/-! Constants of the SDL binding. -/

def KEYDOWN : Nat := 0x300

def KEYUP : Nat := 0x301

def WINDOWEVENT_SIZE_CHANGED : Nat := 6

def WINDOW_FULLSCREEN_DESKTOP : Nat := 0x1001

def K_ESCAPE : Int := 27

def K_SPACE : Int := 32

def K_F11 : Int := 1073741892

def K_RIGHT : Int := 1073741903

def K_LEFT : Int := 1073741904

def K_UP : Int := 1073741906

def K_LCTRL : Int := 1073742048

/-- Fields of `sdl.KeyboardEvent` that the loop reads (`Sym` is `Keysym.Sym`). -/
structure KeyboardEvent where
  EventType : Nat
  Repeat : Nat
  Sym : Int
  deriving DecidableEq, Repr

/-- Fields of `sdl.WindowEvent` that the loop reads. -/
structure WindowEvent where
  Event : Nat
  Data1 : Int
  Data2 : Int
  deriving DecidableEq, Repr

/-- The dynamic type of a polled event, as the type switch distinguishes it. -/
inductive Event where
  | Keyboard (event : KeyboardEvent)
  | Window (event : WindowEvent)
  | Quit
  | Other
  deriving DecidableEq, Repr

/-- A call that the loop of `main` makes on one of its collaborators. -/
inductive HostCall where
  | HandleInput (e : InputEvent)
  | SetFullscreen (flags : Nat)
  | setWindowSize (width height : Int)
  | Update
  | SetDrawColor (r g b a : Nat)
  | Clear
  | Render
  | Present
  deriving DecidableEq, Repr

/-- The `switch event.Keysym.Sym` of the `KEYDOWN` branch (lines 105 to 114). -/
def keyDownCalls (charIndex : Int) (sym : Int) : List HostCall :=
  if sym = K_LEFT then [HostCall.HandleInput ⟨InputKind.GoLeft, true, charIndex⟩]
  else if sym = K_RIGHT then [HostCall.HandleInput ⟨InputKind.GoRight, true, charIndex⟩]
  else if sym = K_UP ∨ sym = K_SPACE ∨ sym = K_LCTRL then
    [HostCall.HandleInput ⟨InputKind.Jump, true, charIndex⟩]
  else if sym = K_ESCAPE then [HostCall.HandleInput ⟨InputKind.QuitGame, true, charIndex⟩]
  else []

/-- The `switch event.Keysym.Sym` of the `KEYUP` branch (lines 118 to 134), with the
new value of the variable `fullscreen`. -/
def keyUpCalls (charIndex : Int) (fullscreen : Bool) (sym : Int) : List HostCall × Bool :=
  if sym = K_LEFT then ([HostCall.HandleInput ⟨InputKind.GoLeft, false, charIndex⟩], fullscreen)
  else if sym = K_RIGHT then
    ([HostCall.HandleInput ⟨InputKind.GoRight, false, charIndex⟩], fullscreen)
  else if sym = K_UP ∨ sym = K_SPACE ∨ sym = K_LCTRL then
    ([HostCall.HandleInput ⟨InputKind.Jump, false, charIndex⟩], fullscreen)
  else if sym = K_F11 then
    (if fullscreen then [HostCall.SetFullscreen 0]
      else [HostCall.SetFullscreen WINDOW_FULLSCREEN_DESKTOP], !fullscreen)
  else if sym = K_ESCAPE then
    ([HostCall.HandleInput ⟨InputKind.QuitGame, false, charIndex⟩], fullscreen)
  else ([], fullscreen)

/-- The body of the event loop for one polled event (lines 101 to 144): the calls it
makes and the new value of `fullscreen`. -/
def dispatch (charIndex : Int) (fullscreen : Bool) : Event → List HostCall × Bool
  | Event.Keyboard event =>
    let down :=
      if event.EventType = KEYDOWN then
        if event.Repeat = 0 then keyDownCalls charIndex event.Sym else []
      else []
    let up :=
      if event.EventType = KEYUP then keyUpCalls charIndex fullscreen event.Sym
      else ([], fullscreen)
    (down ++ up.1, up.2)
  | Event.Window event =>
    if event.Event = WINDOWEVENT_SIZE_CHANGED then
      ([HostCall.setWindowSize event.Data1 event.Data2], fullscreen)
    else ([], fullscreen)
  | Event.Quit => ([HostCall.HandleInput ⟨InputKind.QuitGame, true, charIndex⟩], fullscreen)
  | Event.Other => ([], fullscreen)

/-- The inner `for` loop (line 100) over the events that `sdl.PollEvent` returns
until it returns nil. -/
def pollEvents (charIndex : Int) : Bool → List Event → List HostCall × Bool
  | fullscreen, [] => ([], fullscreen)
  | fullscreen, e :: es =>
    let r := dispatch charIndex fullscreen e
    let rest := pollEvents charIndex r.2 es
    (r.1 ++ rest.1, rest.2)

/-- The `InputEvent`s among a list of calls, in order. -/
def inputEvents : List HostCall → List InputEvent
  | [] => []
  | HostCall.HandleInput e :: cs => e :: inputEvents cs
  | _ :: cs => inputEvents cs

/-! ### Update and render step -/

/-- `time.Second` in nanoseconds. -/
def Second : Int := 1000000000

/-- `frameTime := time.Second / 65` (integer division of a `Duration`). -/
def frameTime : Int := Int.tdiv Second 65

/-- `t.Sub(u)` on instants given in nanoseconds: the difference as a `Duration`,
saturated at the largest and smallest `Duration`. -/
def Sub (t u : Int) : Int :=
  if t - u > 2 ^ 63 - 1 then 2 ^ 63 - 1
  else if t - u < -(2 : Int) ^ 63 then -(2 : Int) ^ 63
  else t - u

/-- The variables of `main` that live across iterations of the loop. -/
structure LoopState where
  lastUpdate : Int
  fullscreen : Bool
  deriving DecidableEq, Repr

/-- What the environment supplies during one iteration: the polled events, the
reading of `time.Now()`, and whether `SetDrawColor` and `Clear` return an error. -/
structure Inputs where
  events : List Event
  now : Int
  setDrawColorErr : Bool
  clearErr : Bool
  deriving DecidableEq, Repr

/-- The state at loop entry: `lastUpdate := time.Now().Add(-frameTime)`, and
`fullscreen := true`. -/
def initialLoopState (start : Int) : LoopState :=
  { lastUpdate := start - frameTime, fullscreen := true }

/-- One iteration of the loop of `main` (lines 100 to 157): the calls made and the
next state, `none` when `check` panics. -/
def iteration (charIndex : Int) (st : LoopState) (inp : Inputs) :
    List HostCall × Option LoopState :=
  let polled := pollEvents charIndex st.fullscreen inp.events
  let now := inp.now
  let dt := Sub now st.lastUpdate
  let upd : List HostCall × Int :=
    if dt > frameTime then ([HostCall.Update], now) else ([], st.lastUpdate)
  let calls := polled.1 ++ upd.1 ++ [HostCall.SetDrawColor 0 95 83 255]
  if inp.setDrawColorErr then (calls, none)
  else if inp.clearErr then (calls ++ [HostCall.Clear], none)
  else
    (calls ++ [HostCall.Clear, HostCall.Render, HostCall.Present],
      some { lastUpdate := upd.2, fullscreen := polled.2 })

/-- One executed iteration: the clock reading it took and the calls it made. -/
structure Round where
  now : Int
  calls : List HostCall
  deriving DecidableEq, Repr

/-- The loop of `main` over the iterations for which `game.Running()` held; it ends
early when an iteration panics. -/
def mainLoop (charIndex : Int) : LoopState → List Inputs → List Round
  | _, [] => []
  | st, inp :: rest =>
    match iteration charIndex st inp with
    | (calls, none) => [{ now := inp.now, calls := calls }]
    | (calls, some st1) => { now := inp.now, calls := calls } :: mainLoop charIndex st1 rest

/-- The clock readings of the iterations that called `game.Update`, in order. -/
def updateTimes (rounds : List Round) : List Int :=
  (rounds.filter fun r => decide (HostCall.Update ∈ r.calls)).map fun r => r.now

/-! ### textureImage -/

/-- An `sdl.Rect`. -/
structure Rect where
  X : Int
  Y : Int
  W : Int
  H : Int
  deriving DecidableEq, Repr

/-- The struct `textureImage`; the texture is a handle, the renderer is the receiver
of the recorded `Copy` calls and the camera is represented by what its method
`offset` returns. -/
structure textureImage where
  texture : Nat
  source : Rect
  deriving DecidableEq, Repr

/-- One call `renderer.Copy(texture, &src, &dst)`. -/
structure CopyCall where
  texture : Nat
  src : Rect
  dst : Rect
  deriving DecidableEq, Repr

/-- The function `check`: panics (`none`) on an error. -/
def check (err : Bool) : Option Unit :=
  if err then none else some ()

/-- `textureImage.DrawAt`; `offset` is the pair that `img.camera.offset()` returns and
`copyErr` tells whether the renderer answers a `Copy` call with an error. -/
def textureImage.DrawAt (img : textureImage) (offset : Int × Int) (copyErr : CopyCall → Bool)
    (x y : Int) : List CopyCall × Option Unit :=
  let dx := offset.1
  let dy := offset.2
  let dest : Rect :=
    { X := toInt32 (wrapInt (x + dx)), Y := toInt32 (wrapInt (y + dy)),
      W := img.source.W, H := img.source.H }
  let call : CopyCall := { texture := img.texture, src := img.source, dst := dest }
  ([call], check (copyErr call))

/-! ## Vocabulary of the properties -/

/-- The Hero states that `Render` can meet: a freshly constructed Hero, then
`vs.length` calls of `Update` with `SpeedX` rewritten to the values `vs` before the
calls, then a last rewrite of `SpeedX` to `v`. -/
def reached {Image : Type} (c : Directions) (LoadImage : String → Option Image)
    (vs : List Int) (v : Int) : Hero Image :=
  (Hero.run c vs (NewHero c LoadImage)).setSpeedX v

/-- The successive distinct values of a sequence: its first value, then every value at
which it changes. -/
def phases : List Int → List Int
  | [] => []
  | x :: xs => x :: changes x xs

/-- The translation table of the specification: `Left -> GoLeft`, `Right -> GoRight`,
`Up`, `Space`, `Ctrl -> Jump`, `Escape -> QuitGame`; `none` for every other key. -/
def keyKind (sym : Int) : Option InputKind :=
  if sym = K_LEFT then some InputKind.GoLeft
  else if sym = K_RIGHT then some InputKind.GoRight
  else if sym = K_UP ∨ sym = K_SPACE ∨ sym = K_LCTRL then some InputKind.Jump
  else if sym = K_ESCAPE then some InputKind.QuitGame
  else none

/-- The asset ids of the six run images that `NewHero` loads. -/
def runImageIds : List String :=
  [ "gophette_left_run1", "gophette_left_run2", "gophette_left_run3",
    "gophette_right_run1", "gophette_right_run2", "gophette_right_run3" ]

/-- The raw events of a held key: one key-down with `Repeat == 0`, then one key-down
per listed repeat count. -/
def heldKey (sym : Int) (repeats : List Nat) : List Event :=
  Event.Keyboard ⟨KEYDOWN, 0, sym⟩ :: repeats.map fun r => Event.Keyboard ⟨KEYDOWN, r, sym⟩

/-- Direction constants for the examples: two directions, the left one first, which is
the order of the rows in the literals of `NewHero`. -/
def stdDirections : Directions :=
  { LeftDirectionIndex := 0, RightDirectionIndex := 1, DirectionCount := 2 }

/-- A Hero without images for the examples, given by `Direction`, `X`, `Y`, `SpeedX`,
`runFrameIndex` and `nextRunFrame`. -/
def sampleHero (direction x y speedX runFrameIndex nextRunFrame : Int) : Hero Nat :=
  { Direction := direction, X := x, Y := y, SpeedX := speedX, SpeedY := 0,
    runFrames := [], jumpFrames := [],
    runFrameIndex := runFrameIndex, nextRunFrame := nextRunFrame }

/-! # Properties -/

/-! ### Machine integers -/

theorem wrapInt_eq (z : Int) :
    wrapInt z = (z + 9223372036854775808) % 18446744073709551616 - 9223372036854775808 := by
  simp [wrapInt, wrapBits]

theorem toInt32_eq (z : Int) :
    toInt32 z = (z + 2147483648) % 4294967296 - 2147483648 := by
  simp [toInt32, wrapBits]

theorem inIntRange_iff (z : Int) :
    InIntRange z ↔ -9223372036854775808 ≤ z ∧ z < 9223372036854775808 := by
  simp [InIntRange]

/-- A Go `int` operation whose exact result is representable returns it. -/
theorem wrapInt_of_inRange {z : Int} (hz : InIntRange z) : wrapInt z = z := by
  rw [inIntRange_iff] at hz
  rw [wrapInt_eq]
  omega

theorem wrapInt_inRange (z : Int) : InIntRange (wrapInt z) := by
  rw [inIntRange_iff, wrapInt_eq]
  omega

/-- Wrapping an intermediate sum does not change the wrapped total. -/
theorem wrapInt_wrapInt_add (a b : Int) : wrapInt (wrapInt a + b) = wrapInt (a + b) := by
  simp only [wrapInt_eq]
  omega

/-- Converting a wrapped `int` to `int32` only depends on the exact value. -/
theorem toInt32_wrapInt (z : Int) : toInt32 (wrapInt z) = toInt32 z := by
  rw [toInt32_eq, toInt32_eq, wrapInt_eq]
  omega

theorem toInt32_of_inRange {z : Int} (hz : InInt32Range z) : toInt32 z = z := by
  have h : -2147483648 ≤ z ∧ z < 2147483648 := by simpa [InInt32Range] using hz
  rw [toInt32_eq]
  omega

/-! ### Field by field effect of `Hero.Update` -/

theorem Update_Direction {Image : Type} (c : Directions) (h : Hero Image) :
    (h.Update c).Direction =
      if h.SpeedX < 0 then c.LeftDirectionIndex
      else if 0 < h.SpeedX then c.RightDirectionIndex
      else h.Direction := by
  unfold Hero.Update
  by_cases h1 : h.SpeedX < 0
  · have h2 : ¬ h.SpeedX > 0 := by omega
    have h3 : ¬ h.SpeedX = 0 := by omega
    simp only [h1, h2, h3, if_true, if_false]
    split_ifs <;> rfl
  · by_cases h2 : h.SpeedX > 0
    · have h3 : ¬ h.SpeedX = 0 := by omega
      simp only [h1, h2, h3, if_true, if_false]
      split_ifs <;> rfl
    · have h3 : h.SpeedX = 0 := by omega
      simp [h3]

theorem Update_SpeedX {Image : Type} (c : Directions) (h : Hero Image) :
    (h.Update c).SpeedX = h.SpeedX := by
  unfold Hero.Update
  dsimp only
  split_ifs <;> rfl

theorem Update_X {Image : Type} (c : Directions) (h : Hero Image) :
    (h.Update c).X = wrapInt (h.X + h.SpeedX) := by
  unfold Hero.Update
  dsimp only
  split_ifs <;> rfl

theorem Update_Y {Image : Type} (c : Directions) (h : Hero Image) :
    (h.Update c).Y = h.Y := by
  unfold Hero.Update
  dsimp only
  split_ifs <;> rfl

theorem Update_SpeedY {Image : Type} (c : Directions) (h : Hero Image) :
    (h.Update c).SpeedY = h.SpeedY := by
  unfold Hero.Update
  dsimp only
  split_ifs <;> rfl

theorem Update_runFrames {Image : Type} (c : Directions) (h : Hero Image) :
    (h.Update c).runFrames = h.runFrames := by
  unfold Hero.Update
  dsimp only
  split_ifs <;> rfl

/-- At `SpeedX == 0` an `Update` only resets the animation cursor (and adds 0 to `X`). -/
theorem Update_rest {Image : Type} (c : Directions) (h : Hero Image) (h0 : h.SpeedX = 0) :
    h.Update c =
      { h with runFrameIndex := 0, nextRunFrame := 0, X := wrapInt (h.X + 0) } := by
  unfold Hero.Update
  simp [h0]

/-- A sequence of calls followed by one more call. -/
theorem run_append {Image : Type} (c : Directions) (vs : List Int) (v : Int) (h : Hero Image) :
    Hero.run c (vs ++ [v]) h = ((Hero.run c vs h).setSpeedX v).Update c := by
  induction vs generalizing h with
  | nil => rfl
  | cons w ws ih => simp only [List.cons_append, Hero.run]; exact ih _

theorem iterate_Update_SpeedX {Image : Type} (c : Directions) (h : Hero Image) (n : Nat) :
    ((Hero.Update c)^[n] h).SpeedX = h.SpeedX := by
  induction n with
  | zero => rfl
  | succ k ih => rw [Function.iterate_succ_apply', Update_SpeedX, ih]

theorem iterate_Update_X {Image : Type} (c : Directions) (h : Hero Image) (n : Nat)
    (hX : InIntRange h.X) :
    ((Hero.Update c)^[n] h).X = wrapInt (h.X + n * h.SpeedX) := by
  induction n with
  | zero => simp [wrapInt_of_inRange hX]
  | succ k ih =>
    rw [Function.iterate_succ_apply', Update_X, ih, iterate_Update_SpeedX,
      wrapInt_wrapInt_add]
    congr 1
    push_cast
    ring

/-! ### The animation cursor -/

/-- With nonzero `SpeedX` an `Update` acts on the animation cursor as `advance`. -/
theorem Update_cursor {Image : Type} (c : Directions) (h : Hero Image) (v : Int) (hv : v ≠ 0) :
    ((h.setSpeedX v).Update c).cursor = advance h.cursor := by
  unfold Hero.Update Hero.setSpeedX Hero.cursor advance
  have h1 : ¬ v = 0 := hv
  by_cases hneg : v < 0
  · have hpos : ¬ v > 0 := by omega
    simp only [hneg, hpos, h1, if_true, if_false]
    split_ifs <;> rfl
  · have hpos : v > 0 := by omega
    simp only [hneg, hpos, h1, if_true, if_false]
    split_ifs <;> rfl

/-- The function `advance` keeps the cursor within its ranges. -/
theorem advance_range (r n : Int) (hr : 0 ≤ r ∧ r ≤ 3) (hn : 0 ≤ n ∧ n ≤ 4) :
    (0 ≤ (advance (r, n)).1 ∧ (advance (r, n)).1 ≤ 3) ∧
    (0 ≤ (advance (r, n)).2 ∧ (advance (r, n)).2 ≤ 4) := by
  obtain ⟨hr0, hr3⟩ := hr
  obtain ⟨hn0, hn4⟩ := hn
  interval_cases r <;> interval_cases n <;> decide

/-- While moving, the trace of `runFrameIndex` only depends on the cursor and the number of ticks. -/
theorem frameTrace_eq_cursorTrace {Image : Type} (c : Directions) (vs : List Int)
    (h : Hero Image) (hv : ∀ v ∈ vs, v ≠ 0) :
    Hero.frameTrace c vs h = cursorTrace vs.length h.cursor := by
  induction vs generalizing h with
  | nil => rfl
  | cons w ws ih =>
    have hw : w ≠ 0 := hv w (List.mem_cons_self _ _)
    have hcur := Update_cursor c h w hw
    simp only [Hero.frameTrace, List.length_cons, cursorTrace]
    rw [ih _ (fun v hvm => hv v (List.mem_cons_of_mem _ hvm)), hcur]
    congr 1
    rw [← hcur]
    rfl

theorem run_cursor {Image : Type} (c : Directions) (vs : List Int)
    (h : Hero Image) (hv : ∀ v ∈ vs, v ≠ 0) :
    (Hero.run c vs h).cursor = advance^[vs.length] h.cursor := by
  induction vs generalizing h with
  | nil => rfl
  | cons w ws ih =>
    have hw : w ≠ 0 := hv w (List.mem_cons_self _ _)
    simp only [Hero.run, List.length_cons, Function.iterate_succ_apply]
    rw [ih _ (fun v hvm => hv v (List.mem_cons_of_mem _ hvm)), Update_cursor c h w hw]

/-- The 16 ticks that follow any cursor: the rest of the current phase, three full phases, and the start of the phase that wraps around. -/
theorem cursor_window (r n : Int) (hr : 0 ≤ r ∧ r ≤ 3) (hn : 0 ≤ n ∧ n ≤ 4) :
    cursorTrace 16 (r, n) =
      List.replicate ((max n 1).toNat - 1) r ++
        List.replicate HeroRunFrameDelay.toNat ((r + 1) % 4) ++
        List.replicate HeroRunFrameDelay.toNat ((r + 2) % 4) ++
        List.replicate HeroRunFrameDelay.toNat ((r + 3) % 4) ++
        List.replicate (HeroRunFrameDelay.toNat + 1 - (max n 1).toNat) r := by
  obtain ⟨hr0, hr3⟩ := hr
  obtain ⟨hn0, hn4⟩ := hn
  interval_cases r <;> interval_cases n <;> decide

/-- Facts about the 16 and 32 ticks that follow any cursor, checked cursor by cursor. -/
theorem cursor_cycle (r n : Int) (hr : 0 ≤ r ∧ r ≤ 3) (hn : 0 ≤ n ∧ n ≤ 4) :
    changes r (cursorTrace 16 (r, n)) = [(r + 1) % 4, (r + 2) % 4, (r + 3) % 4, r] ∧
    (∀ f ∈ [(0 : Int), 1, 2, 3], (cursorTrace 16 (r, n)).count f = HeroRunFrameDelay.toNat) ∧
    (advance^[16] (r, n)).1 = r ∧
    changes (renderFrameIndex r) ((cursorTrace 32 (r, n)).map renderFrameIndex) =
      (List.range 8).map (fun k : Nat => renderFrameIndex ((r + 1 + k) % 4)) ∧
    (r = 3 → n ≤ 1 → (cursorTrace 32 (r, n)).map renderFrameIndex = twoCycles ∧
      phases ((cursorTrace 32 (r, n)).map renderFrameIndex) = [0, 1, 0, 2, 0, 1, 0, 2]) := by
  obtain ⟨hr0, hr3⟩ := hr
  obtain ⟨hn0, hn4⟩ := hn
  interval_cases r <;> interval_cases n <;> decide

/-! ### The acceleration step -/

theorem tickLeft_SpeedX {Image : Type} (c : Directions) (h : Hero Image) :
    (h.tickLeft c).SpeedX = max (-HeroMaxSpeedX) (min HeroMaxSpeedX (h.SpeedX - HeroAccelerationX)) := by
  unfold Hero.tickLeft
  rw [Update_SpeedX]
  rfl

theorem tickLeft_X {Image : Type} (c : Directions) (h : Hero Image) :
    (h.tickLeft c).X = wrapInt (h.X + (h.tickLeft c).SpeedX) := by
  rw [tickLeft_SpeedX]
  unfold Hero.tickLeft
  rw [Update_X]
  rfl

theorem tickLeft_Y {Image : Type} (c : Directions) (h : Hero Image) :
    (h.tickLeft c).Y = h.Y := by
  unfold Hero.tickLeft
  rw [Update_Y]
  rfl

theorem tickLeft_Direction {Image : Type} (c : Directions) (h : Hero Image) :
    (h.tickLeft c).Direction =
      if (h.tickLeft c).SpeedX < 0 then c.LeftDirectionIndex
      else if 0 < (h.tickLeft c).SpeedX then c.RightDirectionIndex
      else h.Direction := by
  rw [tickLeft_SpeedX]
  unfold Hero.tickLeft
  rw [Update_Direction]
  rfl

theorem iterate_tickLeft_SpeedX {Image : Type} (c : Directions) (h : Hero Image)
    (h0 : h.SpeedX = 0) (n : Nat) :
    ((Hero.tickLeft c)^[n] h).SpeedX = max (-HeroMaxSpeedX) (-HeroAccelerationX * n) := by
  induction n with
  | zero => simp [h0, HeroMaxSpeedX]
  | succ k ih =>
    rw [Function.iterate_succ_apply', tickLeft_SpeedX, ih]
    simp only [HeroMaxSpeedX, HeroAccelerationX]
    push_cast
    omega

/-! ### Array lookups of `Hero.Render` -/

theorem index_of_lt {α : Type} (xs : List α) (i : Int) (h0 : 0 ≤ i) (h1 : i < xs.length) :
    ∃ x, index xs i = some x ∧ x ∈ xs := by
  have hlt : i.toNat < xs.length := by omega
  refine ⟨xs.get ⟨i.toNat, hlt⟩, ?_, List.get_mem _ _ _⟩
  unfold index
  rw [if_pos h0, List.get?_eq_get hlt]

theorem renderFrameIndex_spec (r : Int) (h0 : 0 ≤ r) (h3 : r ≤ 3) :
    visibleFrame r = some (renderFrameIndex r) ∧
      0 ≤ renderFrameIndex r ∧ renderFrameIndex r ≤ 2 := by
  interval_cases r <;> decide

theorem NewHero_row {Image : Type} (c : Directions) (LoadImage : String → Option Image)
    (d : Int) (hd0 : 0 ≤ d) (hd2 : d < 2) :
    ∃ row, index (NewHero c LoadImage).runFrames d = some row ∧ row.length = 3 ∧
      ∀ e ∈ row, ∃ id ∈ runImageIds, LoadImage id = e := by
  interval_cases d
  · refine ⟨_, rfl, rfl, ?_⟩
    intro e he
    simp only [List.mem_cons, List.mem_singleton, List.not_mem_nil, or_false] at he
    rcases he with h | h | h <;> subst h
    · exact ⟨_, by simp [runImageIds], rfl⟩
    · exact ⟨_, by simp [runImageIds], rfl⟩
    · exact ⟨_, by simp [runImageIds], rfl⟩
  · refine ⟨_, rfl, rfl, ?_⟩
    intro e he
    simp only [List.mem_cons, List.mem_singleton, List.not_mem_nil, or_false] at he
    rcases he with h | h | h <;> subst h
    · exact ⟨_, by simp [runImageIds], rfl⟩
    · exact ⟨_, by simp [runImageIds], rfl⟩
    · exact ⟨_, by simp [runImageIds], rfl⟩

/-- Why the direction indices must select a filled row: with three directions and the
right index 2, a Hero that has moved right selects the third row, whose images are nil,
and `Render` panics although both lookups are in bounds. -/
theorem Render_panics_on_nil_row :
    index (reached ⟨0, 2, 3⟩ (fun id : String => some id) [1] 0).runFrames
        (reached ⟨0, 2, 3⟩ (fun id : String => some id) [1] 0).Direction =
      some [none, none, none] ∧
    (reached ⟨0, 2, 3⟩ (fun id : String => some id) [1] 0).Render = none := by
  decide

/-- Every sequence of `Update` calls keeps the animation cursor within range and
`Direction` on one of the two filled rows, and leaves `runFrames` alone. -/
theorem run_invariant {Image : Type} (c : Directions) (hc : c.Valid)
    (frames : List (List (Option Image))) (vs : List Int) :
    ∀ h : Hero Image,
      (0 ≤ h.runFrameIndex ∧ h.runFrameIndex ≤ 3) →
      (0 ≤ h.nextRunFrame ∧ h.nextRunFrame ≤ 4) →
      (0 ≤ h.Direction ∧ h.Direction < 2) →
      h.runFrames = frames →
      (0 ≤ (Hero.run c vs h).runFrameIndex ∧ (Hero.run c vs h).runFrameIndex ≤ 3) ∧
      (0 ≤ (Hero.run c vs h).nextRunFrame ∧ (Hero.run c vs h).nextRunFrame ≤ 4) ∧
      (0 ≤ (Hero.run c vs h).Direction ∧ (Hero.run c vs h).Direction < 2) ∧
      (Hero.run c vs h).runFrames = frames := by
  induction vs with
  | nil => intro h a b d e; exact ⟨a, b, d, e⟩
  | cons w ws ih =>
    intro h a b d e
    simp only [Hero.run]
    obtain ⟨_, hL0, hL1, hR0, hR1⟩ := hc
    have hcur : (0 ≤ ((h.setSpeedX w).Update c).runFrameIndex ∧
        ((h.setSpeedX w).Update c).runFrameIndex ≤ 3) ∧
        (0 ≤ ((h.setSpeedX w).Update c).nextRunFrame ∧
        ((h.setSpeedX w).Update c).nextRunFrame ≤ 4) := by
      by_cases hw : w = 0
      · have e0 : (h.setSpeedX w).SpeedX = 0 := hw
        rw [Update_rest c _ e0]
        simp
      · have hc2 := Update_cursor c h w hw
        have hr := advance_range h.runFrameIndex h.nextRunFrame a b
        have e1 : ((h.setSpeedX w).Update c).runFrameIndex = (advance h.cursor).1 :=
          congrArg Prod.fst hc2
        have e2 : ((h.setSpeedX w).Update c).nextRunFrame = (advance h.cursor).2 :=
          congrArg Prod.snd hc2
        rw [e1, e2]
        exact hr
    refine ih _ hcur.1 hcur.2 ?_ ?_
    · rw [Update_Direction]
      split_ifs
      · exact ⟨hL0, hL1⟩
      · exact ⟨hR0, hR1⟩
      · exact d
    · rw [Update_runFrames]
      exact e

/-! ### Event translation -/

theorem dispatch_repeat (charIndex : Int) (fullscreen : Bool) (sym : Int) (rep : Nat)
    (hrep : rep ≠ 0) :
    dispatch charIndex fullscreen (Event.Keyboard ⟨KEYDOWN, rep, sym⟩) = ([], fullscreen) := by
  simp [dispatch, hrep, KEYDOWN, KEYUP]

theorem pollEvents_repeats (charIndex : Int) (fullscreen : Bool) (sym : Int) (reps : List Nat)
    (hreps : ∀ r ∈ reps, r ≠ 0) :
    pollEvents charIndex fullscreen (reps.map fun r => Event.Keyboard ⟨KEYDOWN, r, sym⟩) =
      ([], fullscreen) := by
  induction reps with
  | nil => rfl
  | cons r rs ih =>
    have hr : r ≠ 0 := hreps r (List.mem_cons_self _ _)
    simp only [List.map, pollEvents, dispatch_repeat charIndex fullscreen sym r hr,
      ih (fun x hx => hreps x (List.mem_cons_of_mem _ hx)), List.append_nil]

theorem dispatch_keyDown (charIndex : Int) (fullscreen : Bool) (sym : Int) :
    dispatch charIndex fullscreen (Event.Keyboard ⟨KEYDOWN, 0, sym⟩) =
      (keyDownCalls charIndex sym, fullscreen) := by
  simp [dispatch, KEYDOWN, KEYUP]

theorem dispatch_keyUp (charIndex : Int) (fullscreen : Bool) (sym : Int) (rep : Nat) :
    dispatch charIndex fullscreen (Event.Keyboard ⟨KEYUP, rep, sym⟩) =
      keyUpCalls charIndex fullscreen sym := by
  simp [dispatch, KEYDOWN, KEYUP]

theorem keyDownCalls_mapped (charIndex : Int) (sym : Int) (k : InputKind)
    (hk : keyKind sym = some k) :
    keyDownCalls charIndex sym = [HostCall.HandleInput ⟨k, true, charIndex⟩] := by
  unfold keyKind at hk
  unfold keyDownCalls
  split_ifs at hk ⊢ <;> simp_all

theorem keyUpCalls_mapped (charIndex : Int) (fullscreen : Bool) (sym : Int) (k : InputKind)
    (hk : keyKind sym = some k) :
    keyUpCalls charIndex fullscreen sym =
      ([HostCall.HandleInput ⟨k, false, charIndex⟩], fullscreen) := by
  unfold keyKind at hk
  unfold keyUpCalls
  split_ifs at hk ⊢ <;> simp_all [K_F11, K_ESCAPE]

theorem keyDownCalls_unmapped (charIndex : Int) (sym : Int) (hk : keyKind sym = none) :
    keyDownCalls charIndex sym = [] := by
  unfold keyKind at hk
  unfold keyDownCalls
  split_ifs at hk ⊢
  rfl

theorem keyUpCalls_unmapped (charIndex : Int) (fullscreen : Bool) (sym : Int)
    (hk : keyKind sym = none) :
    inputEvents (keyUpCalls charIndex fullscreen sym).1 = [] := by
  unfold keyKind at hk
  unfold keyUpCalls
  split_ifs at hk ⊢ <;> simp_all [inputEvents]

/-- Handling an event never calls `game.Update` or `game.Render`. -/
theorem dispatch_calls (charIndex : Int) (fullscreen : Bool) (e : Event) :
    HostCall.Update ∉ (dispatch charIndex fullscreen e).1 ∧
    HostCall.Render ∉ (dispatch charIndex fullscreen e).1 := by
  cases e with
  | Keyboard event =>
    simp only [dispatch, keyDownCalls, keyUpCalls]
    split_ifs <;> simp
  | Window event =>
    simp only [dispatch]
    split_ifs <;> simp
  | Quit => simp [dispatch]
  | Other => simp [dispatch]

theorem pollEvents_calls (charIndex : Int) (fullscreen : Bool) (es : List Event) :
    HostCall.Update ∉ (pollEvents charIndex fullscreen es).1 ∧
    HostCall.Render ∉ (pollEvents charIndex fullscreen es).1 := by
  induction es generalizing fullscreen with
  | nil => simp [pollEvents]
  | cons e rest ih =>
    have h1 := dispatch_calls charIndex fullscreen e
    have h2 := ih (dispatch charIndex fullscreen e).2
    simp only [pollEvents, List.mem_append, not_or]
    exact ⟨⟨h1.1, h2.1⟩, ⟨h1.2, h2.2⟩⟩

/-! ### The update and render step -/

theorem frameTime_eq : frameTime = 15384615 := by decide

/-- Saturation of `Sub` does not affect the comparison with `frameTime`. -/
theorem Sub_gt_frameTime (t u : Int) : Sub t u > frameTime ↔ t - u > frameTime := by
  rw [frameTime_eq]
  unfold Sub
  norm_num
  split_ifs <;> omega

/-- Number of `game.Update` and `game.Render` calls of one iteration, and the new `lastUpdate`. -/
theorem iteration_counts (charIndex : Int) (st : LoopState) (inp : Inputs) :
    (iteration charIndex st inp).1.count HostCall.Update =
      (if inp.now - st.lastUpdate > frameTime then 1 else 0) ∧
    (iteration charIndex st inp).1.count HostCall.Render =
      (if inp.setDrawColorErr = false ∧ inp.clearErr = false then 1 else 0) ∧
    (∀ st1 : LoopState, (iteration charIndex st inp).2 = some st1 →
      st1.lastUpdate = if inp.now - st.lastUpdate > frameTime then inp.now
        else st.lastUpdate) := by
  obtain ⟨hu, hr⟩ := pollEvents_calls charIndex st.fullscreen inp.events
  have hu0 := List.count_eq_zero_of_not_mem hu
  have hr0 := List.count_eq_zero_of_not_mem hr
  have hsub := Sub_gt_frameTime inp.now st.lastUpdate
  unfold iteration
  by_cases hdt : inp.now - st.lastUpdate > frameTime
  · have hdt2 : Sub inp.now st.lastUpdate > frameTime := hsub.2 hdt
    simp only [hdt, hdt2, if_true]
    cases inp.setDrawColorErr <;> cases inp.clearErr <;>
      simp [List.count_append, List.count_cons, hu0, hr0]
  · have hdt2 : ¬ Sub inp.now st.lastUpdate > frameTime := fun h => hdt (hsub.1 h)
    simp only [hdt, hdt2, if_false]
    cases inp.setDrawColorErr <;> cases inp.clearErr <;>
      simp [List.count_append, List.count_cons, hu0, hr0]

theorem iteration_Update_mem (charIndex : Int) (st : LoopState) (inp : Inputs) :
    HostCall.Update ∈ (iteration charIndex st inp).1 ↔ inp.now - st.lastUpdate > frameTime := by
  have h := (iteration_counts charIndex st inp).1
  rw [← List.count_pos_iff, h]
  split_ifs with hdt <;> simp [hdt]

/-- From any loop state on, each `game.Update` comes more than `frameTime` after `lastUpdate`, which is then that reading. -/
theorem updateTimes_chain (charIndex : Int) (inps : List Inputs) :
    ∀ st : LoopState, List.Chain (fun a b : Int => b - a > frameTime) st.lastUpdate
      (updateTimes (mainLoop charIndex st inps)) := by
  induction inps with
  | nil => intro st; exact List.Chain.nil
  | cons inp rest ih =>
    intro st
    have hmem := iteration_Update_mem charIndex st inp
    have hlast := (iteration_counts charIndex st inp).2.2
    unfold mainLoop
    rcases hit : iteration charIndex st inp with ⟨calls, _ | st1⟩
    · rw [hit] at hmem
      by_cases hdt : inp.now - st.lastUpdate > frameTime
      · have hm : HostCall.Update ∈ calls := hmem.2 hdt
        simp only [updateTimes, List.filter, hm, decide_True, List.map]
        exact List.Chain.cons hdt List.Chain.nil
      · have hm : HostCall.Update ∉ calls := fun h => hdt (hmem.1 h)
        simp only [updateTimes, List.filter, hm, decide_False, List.map]
        exact List.Chain.nil
    · rw [hit] at hmem hlast
      have hl := hlast st1 rfl
      have hrec := ih st1
      by_cases hdt : inp.now - st.lastUpdate > frameTime
      · have hm : HostCall.Update ∈ calls := hmem.2 hdt
        rw [if_pos hdt] at hl
        rw [hl] at hrec
        simp only [updateTimes, List.filter, hm, decide_True, List.map]
        exact List.Chain.cons hdt hrec
      · have hm : HostCall.Update ∉ calls := fun h => hdt (hmem.1 h)
        rw [if_neg hdt] at hl
        rw [hl] at hrec
        simp only [updateTimes, List.filter, hm, decide_False, List.map]
        exact hrec

/-! ## The claims -/

/-- C1. Direction law of `Hero.Update`: after one `Update` the `Direction` is
`LeftDirectionIndex` if `SpeedX < 0`, `RightDirectionIndex` if `SpeedX > 0`, and the
`Direction` before the call if `SpeedX == 0`.  The same holds for the last call of every
sequence of `Update` calls between which `SpeedX` is rewritten at will: a tick with
`SpeedX == 0` keeps `Direction`, a tick with nonzero `SpeedX` sets it to the index that
matches the sign.  Hence after any sequence the `Direction` matches the sign of the last
nonzero `SpeedX`, or is the initial one when there was none. -/
theorem C1_direction_law {Image : Type} (c : Directions) (h : Hero Image) :
    ((h.Update c).Direction =
        if h.SpeedX < 0 then c.LeftDirectionIndex
        else if 0 < h.SpeedX then c.RightDirectionIndex
        else h.Direction) ∧
    (∀ (vs : List Int) (v : Int),
      (Hero.run c (vs ++ [v]) h).Direction =
        if v < 0 then c.LeftDirectionIndex
        else if 0 < v then c.RightDirectionIndex
        else (Hero.run c vs h).Direction) ∧
    (∀ vs : List Int,
      (Hero.run c vs h).Direction =
        match vs.reverse.find? (fun v => decide (v ≠ 0)) with
        | none => h.Direction
        | some v => if v < 0 then c.LeftDirectionIndex else c.RightDirectionIndex) := by
  have step : ∀ (vs : List Int) (v : Int),
      (Hero.run c (vs ++ [v]) h).Direction =
        if v < 0 then c.LeftDirectionIndex
        else if 0 < v then c.RightDirectionIndex
        else (Hero.run c vs h).Direction := by
    intro vs v
    rw [run_append, Update_Direction]
    rfl
  refine ⟨Update_Direction c h, step, ?_⟩
  intro vs
  induction vs using List.reverseRecOn with
  | nil => rfl
  | append_singleton ws w ih =>
    rw [step, List.reverse_append, List.reverse_singleton, List.singleton_append,
      List.find?_cons]
    by_cases hw : w = 0
    · subst hw
      simpa using ih
    · by_cases hneg : w < 0
      · simp [hw, hneg]
      · have hpos : 0 < w := by omega
        simp [hw, hneg, hpos]

/-- C2. Idempotence of rest: for every Hero state with `SpeedX == 0`, whatever
`runFrameIndex` and `nextRunFrame` were, one `Update` leaves both at 0, every further
`Update` (which finds `SpeedX` still 0) keeps both at 0, `Update (Update s) = Update s`,
and `X` and `Direction` are unchanged. -/
theorem C2_rest_idempotent {Image : Type} (c : Directions) (h : Hero Image)
    (h0 : h.SpeedX = 0) (hX : InIntRange h.X) :
    (h.Update c).runFrameIndex = 0 ∧ (h.Update c).nextRunFrame = 0 ∧
    (∀ k : Nat, ((Hero.Update c)^[k + 1] h).runFrameIndex = 0 ∧
      ((Hero.Update c)^[k + 1] h).nextRunFrame = 0 ∧
      ((Hero.Update c)^[k + 1] h) = h.Update c) ∧
    (h.Update c).Update c = h.Update c ∧
    (h.Update c).X = h.X ∧ (h.Update c).Direction = h.Direction := by
  have hform : h.Update c = { h with runFrameIndex := 0, nextRunFrame := 0 } := by
    rw [Update_rest c h h0, Int.add_zero, wrapInt_of_inRange hX]
  have hidem : (h.Update c).Update c = h.Update c := by
    have h1 : (h.Update c).SpeedX = 0 := by rw [Update_SpeedX, h0]
    rw [Update_rest c _ h1, Int.add_zero, wrapInt_of_inRange (by rw [hform]; exact hX), hform]
  have hiter : ∀ k : Nat, ((Hero.Update c)^[k + 1] h) = h.Update c := by
    intro k
    induction k with
    | zero => rfl
    | succ j ih => rw [Function.iterate_succ_apply', ih, hidem]
  refine ⟨by rw [hform], by rw [hform], ?_, hidem, by rw [hform], by rw [hform]⟩
  intro k
  rw [hiter k]
  exact ⟨by rw [hform], by rw [hform], rfl⟩

/-- Witness of C2: a Hero facing right that stopped in phase 3 of the run cycle. -/
theorem C2_rest_idempotent_witness :
    ((sampleHero 1 40 50 0 3 2).SpeedX = 0 ∧ InIntRange (sampleHero 1 40 50 0 3 2).X) ∧
    ((sampleHero 1 40 50 0 3 2).Update stdDirections).runFrameIndex = 0 ∧
    ((sampleHero 1 40 50 0 3 2).Update stdDirections).X = 40 :=
  ⟨⟨rfl, by decide⟩,
    (C2_rest_idempotent stdDirections (sampleHero 1 40 50 0 3 2) rfl (by decide)).1,
    (C2_rest_idempotent stdDirections (sampleHero 1 40 50 0 3 2) rfl (by decide)).2.2.2.2.1⟩

/-- Counterexample to C3 as stated.  The Hero is in phase 1 (`runFrameIndex = 1`,
`nextRunFrame = 4`, both within the stated ranges) and moves right for two windows of
16 ticks.  The frames that `Render` selects after the 32 ticks run through
1,0,2,0,1,0,2,0,1, a rotation of the cycle, and not through 0,1,0,2,0,1,0,2. -/
theorem C3_visible_sequence_counterexample :
    (0 ≤ (sampleHero 1 0 0 1 1 4).runFrameIndex ∧ (sampleHero 1 0 0 1 1 4).runFrameIndex ≤ 3 ∧
      0 ≤ (sampleHero 1 0 0 1 1 4).nextRunFrame ∧
      (sampleHero 1 0 0 1 1 4).nextRunFrame ≤ HeroRunFrameDelay) ∧
    (Hero.frameTrace stdDirections (List.replicate 32 1) (sampleHero 1 0 0 1 1 4)).map
        renderFrameIndex =
      [1, 1, 1, 0, 0, 0, 0, 2, 2, 2, 2, 0, 0, 0, 0, 1,
        1, 1, 1, 0, 0, 0, 0, 2, 2, 2, 2, 0, 0, 0, 0, 1] ∧
    phases ((Hero.frameTrace stdDirections (List.replicate 32 1)
        (sampleHero 1 0 0 1 1 4)).map renderFrameIndex) = [1, 0, 2, 0, 1, 0, 2, 0, 1] ∧
    phases ((Hero.frameTrace stdDirections (List.replicate 32 1)
        (sampleHero 1 0 0 1 1 4)).map renderFrameIndex) ≠ [0, 1, 0, 2, 0, 1, 0, 2] ∧
    (Hero.frameTrace stdDirections (List.replicate 32 1) (sampleHero 1 0 0 1 1 4)).map
        renderFrameIndex ≠ twoCycles := by
  decide

/-- C3, as amended.  For every Hero state with `runFrameIndex` in `[0, 3]` and
`nextRunFrame` in `[0, HeroRunFrameDelay]` and every window `vs` of
`HeroRunFrameDelay * 4 = 16` consecutive `Update` calls with `SpeedX != 0`:
the values of `runFrameIndex` after the ticks are the rest of the current phase, then
the three following phases for `HeroRunFrameDelay` ticks each, then the start of the
phase that wraps around; so it changes exactly four times, each time by `+1 mod 4`, it
takes each of 0, 1, 2, 3 on exactly `HeroRunFrameDelay` ticks, and it ends where it
began.  Over two such windows `vs ++ ws` the frame that `Render` selects changes eight
times, the `k`-th change showing the frame of phase `runFrameIndex + k mod 4`: the
cycle 0,1,0,2 entered at the phase the Hero is in.  It is 0,1,0,2,0,1,0,2, each for
`HeroRunFrameDelay` ticks, when the first window starts as phase 0 begins
(`runFrameIndex = 3` and `nextRunFrame <= 1` before its first call). -/
theorem C3_animation_cycle {Image : Type} (c : Directions) (h : Hero Image)
    (vs ws : List Int)
    (hr : 0 ≤ h.runFrameIndex ∧ h.runFrameIndex ≤ 3)
    (hn : 0 ≤ h.nextRunFrame ∧ h.nextRunFrame ≤ HeroRunFrameDelay)
    (hvs : (vs.length : Int) = HeroRunFrameDelay * 4 ∧ ∀ v ∈ vs, v ≠ 0)
    (hws : (ws.length : Int) = HeroRunFrameDelay * 4 ∧ ∀ v ∈ ws, v ≠ 0) :
    Hero.frameTrace c vs h =
      List.replicate ((max h.nextRunFrame 1).toNat - 1) h.runFrameIndex ++
        List.replicate HeroRunFrameDelay.toNat ((h.runFrameIndex + 1) % 4) ++
        List.replicate HeroRunFrameDelay.toNat ((h.runFrameIndex + 2) % 4) ++
        List.replicate HeroRunFrameDelay.toNat ((h.runFrameIndex + 3) % 4) ++
        List.replicate (HeroRunFrameDelay.toNat + 1 - (max h.nextRunFrame 1).toNat)
          h.runFrameIndex ∧
    changes h.runFrameIndex (Hero.frameTrace c vs h) =
      [(h.runFrameIndex + 1) % 4, (h.runFrameIndex + 2) % 4, (h.runFrameIndex + 3) % 4,
        h.runFrameIndex] ∧
    (∀ f ∈ [(0 : Int), 1, 2, 3],
      (Hero.frameTrace c vs h).count f = HeroRunFrameDelay.toNat) ∧
    (Hero.run c vs h).runFrameIndex = h.runFrameIndex ∧
    changes (renderFrameIndex h.runFrameIndex)
        ((Hero.frameTrace c (vs ++ ws) h).map renderFrameIndex) =
      (List.range 8).map (fun k : Nat => renderFrameIndex ((h.runFrameIndex + 1 + k) % 4)) ∧
    (h.runFrameIndex = 3 → h.nextRunFrame ≤ 1 →
      (Hero.frameTrace c (vs ++ ws) h).map renderFrameIndex = twoCycles ∧
      phases ((Hero.frameTrace c (vs ++ ws) h).map renderFrameIndex) =
        [0, 1, 0, 2, 0, 1, 0, 2]) := by
  have hn4 : 0 ≤ h.nextRunFrame ∧ h.nextRunFrame ≤ 4 := hn
  have hl1 : vs.length = 16 := by
    have := hvs.1
    simp only [HeroRunFrameDelay] at this
    omega
  have hl2 : ws.length = 16 := by
    have := hws.1
    simp only [HeroRunFrameDelay] at this
    omega
  have hboth : ∀ v ∈ vs ++ ws, v ≠ 0 := by
    intro v hv
    rcases List.mem_append.1 hv with hv | hv
    · exact hvs.2 v hv
    · exact hws.2 v hv
  have hlen : (vs ++ ws).length = 32 := by rw [List.length_append, hl1, hl2]
  have e16 : Hero.frameTrace c vs h = cursorTrace 16 (h.runFrameIndex, h.nextRunFrame) := by
    rw [frameTrace_eq_cursorTrace c vs h hvs.2, hl1]; rfl
  have e32 : Hero.frameTrace c (vs ++ ws) h =
      cursorTrace 32 (h.runFrameIndex, h.nextRunFrame) := by
    rw [frameTrace_eq_cursorTrace c _ h hboth, hlen]; rfl
  have erun : (Hero.run c vs h).runFrameIndex =
      (advance^[16] (h.runFrameIndex, h.nextRunFrame)).1 := by
    have := run_cursor c vs h hvs.2
    rw [hl1] at this
    exact congrArg Prod.fst this
  obtain ⟨k1, k2, k3, k4, k5⟩ := cursor_cycle h.runFrameIndex h.nextRunFrame hr hn4
  rw [e16, e32, erun]
  exact ⟨cursor_window _ _ hr hn4, k1, k2, k3, k4, k5⟩

/-- Witness of C3: a freshly constructed Hero that runs right for 16 ticks and then
left for 16 ticks. -/
theorem C3_animation_cycle_witness :
    ((0 ≤ (sampleHero 0 0 0 0 0 0).runFrameIndex ∧ (sampleHero 0 0 0 0 0 0).runFrameIndex ≤ 3) ∧
      (0 ≤ (sampleHero 0 0 0 0 0 0).nextRunFrame ∧
        (sampleHero 0 0 0 0 0 0).nextRunFrame ≤ HeroRunFrameDelay) ∧
      (((List.replicate 16 (3 : Int)).length : Int) = HeroRunFrameDelay * 4 ∧
        ∀ v ∈ List.replicate 16 (3 : Int), v ≠ 0) ∧
      (((List.replicate 16 (-3 : Int)).length : Int) = HeroRunFrameDelay * 4 ∧
        ∀ v ∈ List.replicate 16 (-3 : Int), v ≠ 0)) ∧
    Hero.frameTrace stdDirections (List.replicate 16 3) (sampleHero 0 0 0 0 0 0) =
      [1, 1, 1, 1, 2, 2, 2, 2, 3, 3, 3, 3, 0, 0, 0, 0] :=
  ⟨⟨by decide, by decide, by decide, by decide⟩,
    (C3_animation_cycle stdDirections (sampleHero 0 0 0 0 0 0) (List.replicate 16 3)
      (List.replicate 16 (-3)) (by decide) (by decide) (by decide) (by decide)).1.trans
      (by decide)⟩

/-- C4. Position integration by `Hero.Update`: one `Update` sets `X` to the Go integer
sum `X + SpeedX` (the exact sum whenever that is representable) and leaves `Y`, `SpeedX`
and `SpeedY` unchanged; hence after `n` consecutive `Update`s, during which `SpeedX`
keeps its value `v`, `X` is the Go integer value of the initial `X` plus `n * v` (the
exact value whenever that is representable). -/
theorem C4_position_integration {Image : Type} (c : Directions) (h : Hero Image)
    (hX : InIntRange h.X) :
    (h.Update c).X = wrapInt (h.X + h.SpeedX) ∧
    (InIntRange (h.X + h.SpeedX) → (h.Update c).X = h.X + h.SpeedX) ∧
    (h.Update c).Y = h.Y ∧ (h.Update c).SpeedX = h.SpeedX ∧
    (h.Update c).SpeedY = h.SpeedY ∧
    (∀ n : Nat,
      ((Hero.Update c)^[n] h).SpeedX = h.SpeedX ∧
      ((Hero.Update c)^[n] h).X = wrapInt (h.X + n * h.SpeedX) ∧
      (InIntRange (h.X + n * h.SpeedX) → ((Hero.Update c)^[n] h).X = h.X + n * h.SpeedX)) := by
  refine ⟨Update_X c h, ?_, Update_Y c h, Update_SpeedX c h, Update_SpeedY c h, ?_⟩
  · intro hr
    rw [Update_X, wrapInt_of_inRange hr]
  · intro n
    refine ⟨iterate_Update_SpeedX c h n, iterate_Update_X c h n hX, ?_⟩
    intro hr
    rw [iterate_Update_X c h n hX, wrapInt_of_inRange hr]

/-- Witness of C4: three ticks at speed -6 from `X = 100` end at `X = 82`. -/
theorem C4_position_integration_witness :
    (InIntRange (sampleHero 0 100 50 (-6) 0 0).X ∧
      InIntRange ((sampleHero 0 100 50 (-6) 0 0).X + (3 : Nat) * (sampleHero 0 100 50 (-6) 0 0).SpeedX)) ∧
    ((Hero.Update stdDirections)^[3] (sampleHero 0 100 50 (-6) 0 0)).X = 82 :=
  ⟨⟨by decide, by decide⟩,
    ((C4_position_integration stdDirections (sampleHero 0 100 50 (-6) 0 0)
      (by decide)).2.2.2.2.2 3).2.2 (by decide)⟩

/-- C5. Acceleration law of the per-tick update, with the acceleration step modelled
from the specification.  From `SpeedX = 0`, under a constant leftward acceleration
intent and no opposing intent, `SpeedX` after `n` ticks is
`max(-HeroMaxSpeedX, -HeroAccelerationX * n)` for every `n`, it never increases from one
tick to the next, and it stays within `[-HeroMaxSpeedX, HeroMaxSpeedX]`.  Scenario: a
Hero at `(100, 50)` with `SpeedX = 0` facing right has, over the five ticks after a
`GoLeft` press, the `SpeedX` sequence -2,-4,-6,-8,-10, `Direction` left from tick 1
onward, the `X` sequence 98,94,88,80,70 and `Y` 50 throughout. -/
theorem C5_acceleration_law {Image : Type} (c : Directions) (h : Hero Image)
    (h0 : h.SpeedX = 0) :
    (∀ n : Nat,
      ((Hero.tickLeft c)^[n] h).SpeedX = max (-HeroMaxSpeedX) (-HeroAccelerationX * n) ∧
      ((Hero.tickLeft c)^[n + 1] h).SpeedX ≤ ((Hero.tickLeft c)^[n] h).SpeedX ∧
      -HeroMaxSpeedX ≤ ((Hero.tickLeft c)^[n] h).SpeedX ∧
      ((Hero.tickLeft c)^[n] h).SpeedX ≤ HeroMaxSpeedX) ∧
    (h.X = 100 → h.Y = 50 → h.Direction = c.RightDirectionIndex →
      (Hero.leftTrace c 5 h).map (fun s => s.SpeedX) = [-2, -4, -6, -8, -10] ∧
      (Hero.leftTrace c 5 h).map (fun s => s.Direction) =
        List.replicate 5 c.LeftDirectionIndex ∧
      (Hero.leftTrace c 5 h).map (fun s => s.X) = [98, 94, 88, 80, 70] ∧
      (Hero.leftTrace c 5 h).map (fun s => s.Y) = [50, 50, 50, 50, 50]) := by
  constructor
  · intro n
    have e1 := iterate_tickLeft_SpeedX c h h0 n
    have e2 := iterate_tickLeft_SpeedX c h h0 (n + 1)
    rw [e1, e2]
    clear e1 e2
    simp only [HeroMaxSpeedX, HeroAccelerationX]
    push_cast
    refine ⟨trivial, ?_, ?_, ?_⟩ <;> omega
  · intro hX hY _
    have s1 : (h.tickLeft c).SpeedX = -2 := by
      rw [tickLeft_SpeedX, h0]; decide
    have x1 : (h.tickLeft c).X = 98 := by
      rw [tickLeft_X, s1, hX]; decide
    have s2 : ((h.tickLeft c).tickLeft c).SpeedX = -4 := by
      rw [tickLeft_SpeedX, s1]; decide
    have x2 : ((h.tickLeft c).tickLeft c).X = 94 := by
      rw [tickLeft_X, s2, x1]; decide
    have s3 : (((h.tickLeft c).tickLeft c).tickLeft c).SpeedX = -6 := by
      rw [tickLeft_SpeedX, s2]; decide
    have x3 : (((h.tickLeft c).tickLeft c).tickLeft c).X = 88 := by
      rw [tickLeft_X, s3, x2]; decide
    have s4 : ((((h.tickLeft c).tickLeft c).tickLeft c).tickLeft c).SpeedX = -8 := by
      rw [tickLeft_SpeedX, s3]; decide
    have x4 : ((((h.tickLeft c).tickLeft c).tickLeft c).tickLeft c).X = 80 := by
      rw [tickLeft_X, s4, x3]; decide
    have s5 : (((((h.tickLeft c).tickLeft c).tickLeft c).tickLeft c).tickLeft c).SpeedX
        = -10 := by
      rw [tickLeft_SpeedX, s4]; decide
    have x5 : (((((h.tickLeft c).tickLeft c).tickLeft c).tickLeft c).tickLeft c).X = 70 := by
      rw [tickLeft_X, s5, x4]; decide
    refine ⟨?_, ?_, ?_, ?_⟩
    · simp only [Hero.leftTrace, List.map, s1, s2, s3, s4, s5]
    · simp only [Hero.leftTrace, List.map, List.replicate, tickLeft_Direction, s1, s2, s3, s4, s5]
      simp
    · simp only [Hero.leftTrace, List.map, x1, x2, x3, x4, x5]
    · simp only [Hero.leftTrace, List.map, tickLeft_Y, hY]

/-- Witness of C5: the scenario of the specification, and the clamp at tick 7. -/
theorem C5_acceleration_law_witness :
    ((sampleHero 1 100 50 0 0 0).SpeedX = 0 ∧ (sampleHero 1 100 50 0 0 0).X = 100 ∧
      (sampleHero 1 100 50 0 0 0).Y = 50 ∧
      (sampleHero 1 100 50 0 0 0).Direction = stdDirections.RightDirectionIndex) ∧
    (Hero.leftTrace stdDirections 5 (sampleHero 1 100 50 0 0 0)).map (fun s => s.X) =
      [98, 94, 88, 80, 70] ∧
    ((Hero.tickLeft stdDirections)^[7] (sampleHero 1 100 50 0 0 0)).SpeedX = -10 :=
  ⟨⟨rfl, rfl, rfl, rfl⟩,
    ((C5_acceleration_law stdDirections (sampleHero 1 100 50 0 0 0) rfl).2 rfl rfl rfl).2.2.1,
    ((C5_acceleration_law stdDirections (sampleHero 1 100 50 0 0 0) rfl).1 7).1.trans
      (by decide)⟩

/-- C6. Render frame mapping: for direction constants that select the two rows of
images that `NewHero` fills, every Hero state reached from a freshly constructed Hero by
any sequence of `Update` calls (with `SpeedX` rewritten at will between and after the
calls) has `runFrameIndex` in `[0, 3]` and `Direction` a valid direction index; the
frame index `f` is the image of `runFrameIndex` under the mapping
`0 -> 0, 1 -> 1, 2 -> 0, 3 -> 2` and lies in `[0, 2]`; both array lookups are in bounds
and select a value that the asset loader returned for one of the six run images; and
`Render` calls `DrawAt` on that value at `(X, Y)` and does nothing else: it panics if
the value is nil, and it issues exactly one `DrawAt` whenever the loader returned no nil
image (the loader of `main.go` returns a non-nil image or panics). -/
theorem C6_render_frame_mapping {Image : Type} (c : Directions) (hc : c.Valid)
    (LoadImage : String → Option Image) (vs : List Int) (v : Int) :
    0 ≤ (reached c LoadImage vs v).runFrameIndex ∧
    (reached c LoadImage vs v).runFrameIndex ≤ 3 ∧
    0 ≤ (reached c LoadImage vs v).Direction ∧
    (reached c LoadImage vs v).Direction < c.DirectionCount ∧
    ∃ (f : Int) (row : List (Option Image)) (value : Option Image),
      visibleFrame (reached c LoadImage vs v).runFrameIndex = some f ∧ 0 ≤ f ∧ f ≤ 2 ∧
      index (reached c LoadImage vs v).runFrames (reached c LoadImage vs v).Direction =
        some row ∧
      index row f = some value ∧
      (∃ id ∈ runImageIds, LoadImage id = value) ∧
      (reached c LoadImage vs v).Render =
        value.map (fun image =>
          [{ image := image, x := (reached c LoadImage vs v).X,
             y := (reached c LoadImage vs v).Y }]) ∧
      ((∀ id ∈ runImageIds, LoadImage id ≠ none) →
        ∃ image : Image, value = some image ∧
          (reached c LoadImage vs v).Render =
            some [{ image := image, x := (reached c LoadImage vs v).X,
                    y := (reached c LoadImage vs v).Y }]) := by
  have hc2 : 2 ≤ c.DirectionCount := hc.1
  have hinit := run_invariant c hc (NewHero c LoadImage).runFrames vs (NewHero c LoadImage)
    (by simp [NewHero]) (by simp [NewHero]) (by simp [NewHero]) rfl
  obtain ⟨hr, _, hd, hf⟩ := hinit
  unfold reached
  set s := Hero.run c vs (NewHero c LoadImage) with hs
  have e1 : (s.setSpeedX v).runFrameIndex = s.runFrameIndex := rfl
  have e2 : (s.setSpeedX v).Direction = s.Direction := rfl
  have e3 : (s.setSpeedX v).runFrames = s.runFrames := rfl
  have e4 : (s.setSpeedX v).X = s.X := rfl
  have e5 : (s.setSpeedX v).Y = s.Y := rfl
  rw [e1, e2, e3, e4, e5]
  obtain ⟨hv, hv0, hv2⟩ := renderFrameIndex_spec s.runFrameIndex hr.1 hr.2
  obtain ⟨row, hrow, hlen, hfrom⟩ := NewHero_row c LoadImage s.Direction hd.1 hd.2
  rw [← hf] at hrow
  obtain ⟨value, hval, hmem⟩ := index_of_lt row (renderFrameIndex s.runFrameIndex) hv0
    (by rw [hlen]; omega)
  have hR : (s.setSpeedX v).Render =
      match index s.runFrames s.Direction with
      | none => none
      | some row =>
        match index row (renderFrameIndex s.runFrameIndex) with
        | none => none
        | some none => none
        | some (some image) => some [{ image := image, x := s.X, y := s.Y }] := rfl
  have hRender : (s.setSpeedX v).Render =
      value.map (fun image => [{ image := image, x := s.X, y := s.Y }]) := by
    rw [hR, hrow]
    simp only [hval]
    cases value <;> rfl
  obtain ⟨id, hid, hidv⟩ := hfrom value hmem
  refine ⟨hr.1, hr.2, hd.1, by omega, renderFrameIndex s.runFrameIndex, row, value, hv, hv0,
    hv2, hrow, hval, ⟨id, hid, hidv⟩, hRender, ?_⟩
  intro hload
  cases hvalue : value with
  | none => exact absurd (hidv.trans hvalue) (hload id hid)
  | some image =>
    refine ⟨image, rfl, ?_⟩
    rw [hRender, hvalue]
    rfl

/-- Witness of C6: images named by their asset id; the Hero runs right, stops, runs
left for one tick and is then drawn with the second left image at `(2, 0)`. -/
theorem C6_render_frame_mapping_witness :
    (stdDirections.Valid ∧
      ∀ id ∈ runImageIds, (fun id : String => some id) id ≠ none) ∧
    (reached stdDirections (fun id : String => some id) [3, 0, -1] 0).runFrameIndex ≤ 3 ∧
    (reached stdDirections (fun id : String => some id) [3, 0, -1] 0).Render =
      some [{ image := "gophette_left_run2", x := 2, y := 0 }] :=
  ⟨⟨by decide, by decide⟩,
    (C6_render_frame_mapping stdDirections (by decide) (fun id : String => some id)
      [3, 0, -1] 0).2.1,
    by decide⟩

/-- C7. Key-repeat suppression: a raw `KEYDOWN` event with `Repeat != 0` makes no call at
all, for any key; therefore a held key (`Left`, `Right`, `Up`, `Space` or left `Ctrl`)
that generates one key-down with `Repeat == 0` followed by any number of repeated
key-downs makes exactly one call, a `HandleInput` with the `GoLeft`, `GoRight` or `Jump`
press of that key. -/
theorem C7_key_repeat_suppression (charIndex : Int) (fullscreen : Bool) (sym : Int) :
    (∀ rep : Nat, rep ≠ 0 →
      dispatch charIndex fullscreen (Event.Keyboard ⟨KEYDOWN, rep, sym⟩) = ([], fullscreen)) ∧
    (∀ (k : InputKind) (repeats : List Nat),
      sym ∈ [K_LEFT, K_RIGHT, K_UP, K_SPACE, K_LCTRL] → keyKind sym = some k →
      (∀ r ∈ repeats, r ≠ 0) →
      pollEvents charIndex fullscreen (heldKey sym repeats) =
        ([HostCall.HandleInput ⟨k, true, charIndex⟩], fullscreen) ∧
      inputEvents (pollEvents charIndex fullscreen (heldKey sym repeats)).1 =
        [⟨k, true, charIndex⟩] ∧
      (k = InputKind.GoLeft ∨ k = InputKind.GoRight ∨ k = InputKind.Jump)) ∧
    keyKind K_LEFT = some InputKind.GoLeft ∧ keyKind K_RIGHT = some InputKind.GoRight ∧
    keyKind K_UP = some InputKind.Jump ∧ keyKind K_SPACE = some InputKind.Jump ∧
    keyKind K_LCTRL = some InputKind.Jump := by
  refine ⟨fun rep hrep => dispatch_repeat charIndex fullscreen sym rep hrep, ?_,
    by decide, by decide, by decide, by decide, by decide⟩
  intro k repeats hsym hk hreps
  have hpoll : pollEvents charIndex fullscreen (heldKey sym repeats) =
      ([HostCall.HandleInput ⟨k, true, charIndex⟩], fullscreen) := by
    simp only [heldKey, pollEvents, dispatch_keyDown,
      pollEvents_repeats charIndex fullscreen sym repeats hreps,
      keyDownCalls_mapped charIndex sym k hk, List.append_nil]
  refine ⟨hpoll, by rw [hpoll]; rfl, ?_⟩
  simp only [List.mem_cons, List.mem_singleton, List.not_mem_nil, or_false] at hsym
  rcases hsym with h | h | h | h | h <;> subst h <;> cases k <;>
    first
    | exact Or.inl rfl
    | exact Or.inr (Or.inl rfl)
    | exact Or.inr (Or.inr rfl)
    | exact absurd hk (by decide)

/-- Witness of C7: the space bar held through three repeats gives one `Jump` press. -/
theorem C7_key_repeat_suppression_witness :
    (K_SPACE ∈ [K_LEFT, K_RIGHT, K_UP, K_SPACE, K_LCTRL] ∧
      keyKind K_SPACE = some InputKind.Jump ∧ ∀ r ∈ [1, 2, 3], r ≠ 0) ∧
    pollEvents 0 true (heldKey K_SPACE [1, 2, 3]) =
      ([HostCall.HandleInput ⟨InputKind.Jump, true, 0⟩], true) :=
  ⟨⟨by decide, by decide, by decide⟩,
    ((C7_key_repeat_suppression 0 true K_SPACE).2.1 InputKind.Jump [1, 2, 3]
      (by decide) (by decide) (by decide)).1⟩

/-- C8. Input translation table: with the table `Left -> GoLeft`, `Right -> GoRight`,
`Up`, `Space`, left `Ctrl -> Jump`, `Escape -> QuitGame`, a non-repeat key-down of a
mapped key makes exactly one call `HandleInput{kind, true, charIndex}` and a key-up of
a mapped key exactly one call `HandleInput{kind, false, charIndex}`; a key-down of any
other key makes no call and a key-up of any other key delivers no `InputEvent`, as does
a keyboard event that is neither key-down nor key-up; an OS quit request is delivered
as the `QuitGame` press; a window size change delivers no `InputEvent` and calls
`camera.setWindowSize` with the new width and height. -/
theorem C8_input_translation (charIndex : Int) (fullscreen : Bool) :
    (keyKind K_LEFT = some InputKind.GoLeft ∧ keyKind K_RIGHT = some InputKind.GoRight ∧
      keyKind K_UP = some InputKind.Jump ∧ keyKind K_SPACE = some InputKind.Jump ∧
      keyKind K_LCTRL = some InputKind.Jump ∧ keyKind K_ESCAPE = some InputKind.QuitGame) ∧
    (∀ (sym : Int) (k : InputKind) (rep : Nat), keyKind sym = some k →
      dispatch charIndex fullscreen (Event.Keyboard ⟨KEYDOWN, 0, sym⟩) =
        ([HostCall.HandleInput ⟨k, true, charIndex⟩], fullscreen) ∧
      dispatch charIndex fullscreen (Event.Keyboard ⟨KEYUP, rep, sym⟩) =
        ([HostCall.HandleInput ⟨k, false, charIndex⟩], fullscreen)) ∧
    (∀ (sym : Int) (rep : Nat), keyKind sym = none →
      dispatch charIndex fullscreen (Event.Keyboard ⟨KEYDOWN, rep, sym⟩) = ([], fullscreen) ∧
      inputEvents (dispatch charIndex fullscreen (Event.Keyboard ⟨KEYUP, rep, sym⟩)).1 = []) ∧
    (∀ (ty rep : Nat) (sym : Int), ty ≠ KEYDOWN → ty ≠ KEYUP →
      dispatch charIndex fullscreen (Event.Keyboard ⟨ty, rep, sym⟩) = ([], fullscreen)) ∧
    dispatch charIndex fullscreen Event.Quit =
      ([HostCall.HandleInput ⟨InputKind.QuitGame, true, charIndex⟩], fullscreen) ∧
    (∀ width height : Int,
      dispatch charIndex fullscreen
          (Event.Window ⟨WINDOWEVENT_SIZE_CHANGED, width, height⟩) =
        ([HostCall.setWindowSize width height], fullscreen) ∧
      inputEvents (dispatch charIndex fullscreen
          (Event.Window ⟨WINDOWEVENT_SIZE_CHANGED, width, height⟩)).1 = []) ∧
    dispatch charIndex fullscreen Event.Other = ([], fullscreen) := by
  refine ⟨by decide, ?_, ?_, ?_, rfl, ?_, rfl⟩
  · intro sym k rep hk
    rw [dispatch_keyDown, dispatch_keyUp, keyDownCalls_mapped charIndex sym k hk,
      keyUpCalls_mapped charIndex fullscreen sym k hk]
    exact ⟨rfl, rfl⟩
  · intro sym rep hk
    constructor
    · by_cases hrep : rep = 0
      · subst hrep
        rw [dispatch_keyDown, keyDownCalls_unmapped charIndex sym hk]
      · exact dispatch_repeat charIndex fullscreen sym rep hrep
    · rw [dispatch_keyUp]
      exact keyUpCalls_unmapped charIndex fullscreen sym hk
  · intro ty rep sym h1 h2
    simp [dispatch, h1, h2]
  · intro width height
    constructor
    · simp [dispatch]
    · simp [dispatch, inputEvents]

/-- Witness of C8: releasing left `Ctrl` is a `Jump` release, and releasing `F11`,
which is not in the table, toggles fullscreen without any `InputEvent`. -/
theorem C8_input_translation_witness :
    (keyKind K_LCTRL = some InputKind.Jump ∧ keyKind K_F11 = none) ∧
    dispatch 0 true (Event.Keyboard ⟨KEYUP, 0, K_LCTRL⟩) =
      ([HostCall.HandleInput ⟨InputKind.Jump, false, 0⟩], true) ∧
    inputEvents (dispatch 0 true (Event.Keyboard ⟨KEYUP, 0, K_F11⟩)).1 = [] :=
  ⟨⟨by decide, by decide⟩,
    ((C8_input_translation 0 true).2.1 K_LCTRL InputKind.Jump 0 (by decide)).2,
    ((C8_input_translation 0 true).2.2.1 K_F11 0 (by decide)).2⟩

/-- Counterexample to C9 as stated: with the camera offset `(1, 0)`, `DrawAt(0, 0)`
copies to the rectangle at `(0 + 1, 0 + 0) = (1, 0)`, not at `(0 - 1, 0 - 0)`. -/
theorem C9_offset_sign_counterexample :
    (textureImage.DrawAt ⟨7, ⟨0, 0, 16, 16⟩⟩ (1, 0) (fun _ => false) 0 0).1 =
      [⟨7, ⟨0, 0, 16, 16⟩, ⟨1, 0, 16, 16⟩⟩] ∧
    (textureImage.DrawAt ⟨7, ⟨0, 0, 16, 16⟩⟩ (1, 0) (fun _ => false) 0 0).1 ≠
      [⟨7, ⟨0, 0, 16, 16⟩, ⟨0 - 1, 0 - 0, 16, 16⟩⟩] := by
  decide

/-- C9, as amended.  For every world position `(x, y)` and every camera offset
`(dx, dy)` returned by `camera.offset()`, `DrawAt(x, y)` makes exactly one `Copy` call,
from the image's source rectangle to the destination rectangle whose top-left corner is
`worldPos + offset` converted to `int32`, which is `(x + dx, y + dy)` whenever both
sums fit in an `int32`, and whose width and height are those of the source rectangle;
it panics exactly when the renderer answers that call with an error. -/
theorem C9_world_to_screen (img : textureImage) (offset : Int × Int)
    (copyErr : CopyCall → Bool) (x y : Int) :
    (img.DrawAt offset copyErr x y).1 =
      [{ texture := img.texture, src := img.source,
         dst := { X := toInt32 (x + offset.1), Y := toInt32 (y + offset.2),
                  W := img.source.W, H := img.source.H } }] ∧
    (InInt32Range (x + offset.1) → InInt32Range (y + offset.2) →
      (img.DrawAt offset copyErr x y).1 =
        [{ texture := img.texture, src := img.source,
           dst := { X := x + offset.1, Y := y + offset.2,
                    W := img.source.W, H := img.source.H } }]) ∧
    ((img.DrawAt offset copyErr x y).2 = none ↔
      ∃ call ∈ (img.DrawAt offset copyErr x y).1, copyErr call = true) := by
  have hcalls : (img.DrawAt offset copyErr x y).1 =
      [{ texture := img.texture, src := img.source,
         dst := { X := toInt32 (x + offset.1), Y := toInt32 (y + offset.2),
                  W := img.source.W, H := img.source.H } }] := by
    simp only [textureImage.DrawAt, toInt32_wrapInt]
  refine ⟨hcalls, ?_, ?_⟩
  · intro hx hy
    rw [hcalls, toInt32_of_inRange hx, toInt32_of_inRange hy]
  · simp only [textureImage.DrawAt, check, List.mem_singleton, exists_eq_left]
    split_ifs with herr <;> simp [herr]

/-- Witness of C9: the image drawn at world `(400, 300)` under the offset `(-300, 20)`
lands at screen `(100, 320)`. -/
theorem C9_world_to_screen_witness :
    (InInt32Range (400 + (-300, 20).1) ∧ InInt32Range (300 + ((-300 : Int), (20 : Int)).2)) ∧
    (textureImage.DrawAt ⟨7, ⟨0, 0, 16, 16⟩⟩ (-300, 20) (fun _ => false) 400 300).1 =
      [⟨7, ⟨0, 0, 16, 16⟩, ⟨100, 320, 16, 16⟩⟩] :=
  ⟨⟨by decide, by decide⟩,
    (C9_world_to_screen ⟨7, ⟨0, 0, 16, 16⟩⟩ (-300, 20) (fun _ => false) 400 300).2.1
      (by decide) (by decide)⟩

/-- C10. Decoupled update cadence of the host loop, for every sequence of clock
readings, one per iteration: `frameTime` is `time.Second / 65`; an iteration calls
`game.Update` once if `now - lastUpdate > frameTime` and not at all otherwise, and an
iteration that updates sets `lastUpdate` to `now`, whatever multiple of `frameTime` has
elapsed, while any other keeps it; hence the first `game.Update` comes more than
`frameTime` after the initial `lastUpdate` and any two consecutive `game.Update` calls are
more than `frameTime` apart; `game.Render` is called exactly once in every iteration,
whether or not it updated, unless `check` aborts the program before. -/
theorem C10_update_cadence (charIndex : Int) (st : LoopState) :
    frameTime = Int.tdiv 1000000000 65 ∧ frameTime = 15384615 ∧
    (∀ inp : Inputs,
      (iteration charIndex st inp).1.count HostCall.Update =
        (if inp.now - st.lastUpdate > frameTime then 1 else 0) ∧
      (∀ st1 : LoopState, (iteration charIndex st inp).2 = some st1 →
        st1.lastUpdate = if inp.now - st.lastUpdate > frameTime then inp.now
          else st.lastUpdate) ∧
      (iteration charIndex st inp).1.count HostCall.Render =
        (if inp.setDrawColorErr = false ∧ inp.clearErr = false then 1 else 0) ∧
      ((iteration charIndex st inp).2 = none ↔
        ¬ (inp.setDrawColorErr = false ∧ inp.clearErr = false))) ∧
    (∀ inps : List Inputs,
      List.Chain (fun a b : Int => b - a > frameTime) st.lastUpdate
        (updateTimes (mainLoop charIndex st inps)) ∧
      List.Chain' (fun a b : Int => b - a > frameTime)
        (updateTimes (mainLoop charIndex st inps))) := by
  refine ⟨rfl, frameTime_eq, ?_, ?_⟩
  · intro inp
    obtain ⟨h1, h2, h3⟩ := iteration_counts charIndex st inp
    refine ⟨h1, h3, h2, ?_⟩
    unfold iteration
    cases inp.setDrawColorErr <;> cases inp.clearErr <;> simp
  · intro inps
    have hch := updateTimes_chain charIndex inps st
    refine ⟨hch, ?_⟩
    have h2 : List.Chain' (fun a b : Int => b - a > frameTime)
        (st.lastUpdate :: updateTimes (mainLoop charIndex st inps)) := hch
    exact h2.tail

/-- Witness of C10: the loop is entered at instant 0 and its iterations read the clock
at 0 ms, 5 ms, 15 ms, 21 ms and 100 ms; it updates at 5 ms, 21 ms and 100 ms, once
each, although five intervals have elapsed before the last one. -/
theorem C10_update_cadence_witness :
    (iteration 0 (initialLoopState 0) ⟨[], 5000000, false, false⟩).2 =
      some ⟨5000000, true⟩ ∧
    (⟨5000000, true⟩ : LoopState).lastUpdate = 5000000 ∧
    updateTimes (mainLoop 0 (initialLoopState 0)
      [⟨[], 0, false, false⟩, ⟨[], 5000000, false, false⟩, ⟨[], 15000000, false, false⟩,
        ⟨[], 21000000, false, false⟩, ⟨[], 100000000, false, false⟩]) =
      [5000000, 21000000, 100000000] :=
  ⟨by decide,
    (((C10_update_cadence 0 (initialLoopState 0)).2.2.1 ⟨[], 5000000, false, false⟩).2.1
      ⟨5000000, true⟩ (by decide)).trans (by decide),
    by decide⟩

end Gophette
